import Mathlib

/-!
Verification development for the Boardgame Referee system: the session
state machine (players, health, status effects, resources, turn order),
the tool-invocation validator and transition engine, and the
session-creation front end.
-/

namespace Referee

/-- Modelled from the spec: the backend Player record (the Python core is
not in the visible sources). A player has a name, current health,
maximum health, a set of status-effect labels and a resource mapping. -/
structure Player where
  name : String
  hp : Int
  max_hp : Int
  status_effects : List String
  resources : List (String × Int)
deriving Repr, DecidableEq

/-- Modelled from the spec: the backend Session record. `players` is the
ordered player mapping (names unique), `round` starts at 1,
`current_player` rotates through player insertion order, and
`allow_negative` lists the resource names explicitly flagged as allowed
to go negative. -/
structure Session where
  session_id : String
  game_id : String
  players : List Player
  round : Nat
  current_player : String
  allow_negative : List String
deriving Repr, DecidableEq

/-- Modelled from the spec: the tagged-variant representation of tool
invocations, with an explicit `unknown` variant for unrecognized kinds. -/
inductive Invocation where
  | update_player_hp (player : String) (delta : Int) (reason : String)
  | apply_status_effect (player : String) (effect : String)
  | remove_status_effect (player : String) (effect : String)
  | update_player_resource (player : String) (resource_name : String) (delta : Int)
  | next_round
  | unknown (kind : String)
deriving Repr, DecidableEq

/-- Modelled from the spec: the status of a StateChange — applied (with a
flag recording an applied-but-no-op outcome) or rejected with a reason. -/
inductive ChangeStatus where
  | applied (noop : Bool)
  | rejected (reason : String)
deriving Repr, DecidableEq

/-- Whether a change status is a rejection. -/
def ChangeStatus.isRejected : ChangeStatus → Bool
  | .rejected _ => true
  | .applied _ => false

/-- Modelled from the spec: a record of one applied or rejected mutation. -/
structure StateChange where
  invocation : Invocation
  status : ChangeStatus
deriving Repr, DecidableEq

/-- Clamp a value into the closed range [lo, hi]. -/
def clamp (x lo hi : Int) : Int := max lo (min x hi)

/-- Look up a player by name in a session (the ordered mapping lookup). -/
def findPlayer (s : Session) (name : String) : Option Player :=
  s.players.find? (fun p => p.name == name)

/-- Current hp of a named player, when present. -/
def getPlayerHp (s : Session) (name : String) : Option Int :=
  (findPlayer s name).map Player.hp

/-- Quantity of a named resource for a player, defaulting to 0. -/
def getResource (p : Player) (rname : String) : Int :=
  match p.resources.lookup rname with
  | some q => q
  | none => 0

/-- Update (or insert) one key of an association list. -/
def updateAssoc : List (String × Int) → String → Int → List (String × Int)
  | [], r, q => [(r, q)]
  | (k, v) :: rest, r, q =>
      if k == r then (r, q) :: rest else (k, v) :: updateAssoc rest r q

/-- Set one resource of a player to a given quantity. -/
def setResource (p : Player) (rname : String) (q : Int) : Player :=
  { p with resources := updateAssoc p.resources rname q }

/-- Rewrite the player with the given name through `f`, leaving the other
players untouched. -/
def mapPlayer (s : Session) (name : String) (f : Player → Player) : Session :=
  { s with players := s.players.map (fun p => if p.name == name then f p else p) }

/-- The fixed player insertion order of a session, as a list of names. -/
def playerNames (s : Session) : List String :=
  s.players.map Player.name

/-- Modelled from the spec: `next_round()` advances `current_player` to
the next name in the fixed player insertion order and increments `round`
when wrapping past the last player. -/
def nextRound (s : Session) : Session :=
  let names := playerNames s
  let n := names.length
  let i := names.indexOf s.current_player
  { s with
    current_player := names.getD ((i + 1) % n) s.current_player,
    round := if i + 1 = n then s.round + 1 else s.round }

/-- Modelled from the spec: one step of the Tool Invocation Validator and
State Transition Engine (the backend core is not in the visible sources).
Given the current state and one invocation it returns the new state and
the StateChange record; a rejection leaves the state untouched. -/
def applyInvocation (s : Session) (inv : Invocation) : Session × StateChange :=
  match inv with
  | .update_player_hp player delta _reason =>
      match findPlayer s player with
      | none => (s, ⟨inv, .rejected "player not in session"⟩)
      | some _ =>
          (mapPlayer s player (fun p => { p with hp := clamp (p.hp + delta) 0 p.max_hp }),
           ⟨inv, .applied false⟩)
  | .apply_status_effect player effect =>
      match findPlayer s player with
      | none => (s, ⟨inv, .rejected "player not in session"⟩)
      | some p =>
          if p.status_effects.contains effect then (s, ⟨inv, .applied true⟩)
          else
            (mapPlayer s player
               (fun q => { q with status_effects := q.status_effects ++ [effect] }),
             ⟨inv, .applied false⟩)
  | .remove_status_effect player effect =>
      match findPlayer s player with
      | none => (s, ⟨inv, .rejected "player not in session"⟩)
      | some p =>
          if p.status_effects.contains effect then
            (mapPlayer s player
               (fun q => { q with status_effects := q.status_effects.erase effect }),
             ⟨inv, .applied false⟩)
          else (s, ⟨inv, .applied true⟩)
  | .update_player_resource player rname delta =>
      match findPlayer s player with
      | none => (s, ⟨inv, .rejected "player not in session"⟩)
      | some p =>
          let q := getResource p rname + delta
          if q < 0 && !(s.allow_negative.contains rname) then
            (s, ⟨inv, .rejected "resource would go negative"⟩)
          else
            (mapPlayer s player (fun pl => setResource pl rname q), ⟨inv, .applied false⟩)
  | .next_round => (nextRound s, ⟨inv, .applied false⟩)
  | .unknown _ => (s, ⟨inv, .rejected "unrecognized action"⟩)

/-- Modelled from the spec: the pure Validator view — the StateChange an
invocation produces against a given state. -/
def validate (s : Session) (inv : Invocation) : StateChange :=
  (applyInvocation s inv).2

/-- Modelled from the spec: the Transition Engine batch application —
invocations are processed strictly in list order, each validated against
the in-progress state produced by the preceding ones. -/
def applyBatch (s : Session) : List Invocation → Session × List StateChange
  | [] => (s, [])
  | inv :: rest =>
      let step := applyInvocation s inv
      let tail := applyBatch step.1 rest
      (tail.1, step.2 :: tail.2)

/-- A player record as submitted at session creation (name, starting hp,
maximum hp), matching the payload the front end posts. -/
structure PlayerInit where
  name : String
  hp : Int
  max_hp : Int
deriving Repr, DecidableEq

/-- Modelled from the spec: the error of session creation. -/
inductive CreateError where
  | DuplicatePlayerName
deriving Repr, DecidableEq

/-- Modelled from the spec: `create(game_id, players)` of the Session
Lifecycle Manager (not in the visible sources) — fails with
`DuplicatePlayerName` when names collide, otherwise allocates a session
with round 1, current_player the first given player, every player at
their specified starting health and empty effects/resources. -/
def create (game_id : String) (inits : List PlayerInit) : Except CreateError Session :=
  let names := inits.map PlayerInit.name
  if names.dedup.length ≠ names.length then
    .error .DuplicatePlayerName
  else
    .ok { session_id := game_id ++ "-session",
          game_id := game_id,
          players := inits.map (fun i => ⟨i.name, i.hp, i.max_hp, [], []⟩),
          round := 1,
          current_player := names.headD "",
          allow_negative := [] }

/-- Modelled from the spec: the five recognized tool invocation kinds. -/
def recognizedKinds : List String :=
  ["update_player_hp", "apply_status_effect", "remove_status_effect",
   "update_player_resource", "next_round"]

/-- A raw tool call as emitted by the model: an action name plus the
argument fields the recognized kinds use. -/
structure RawInvocation where
  action : String
  player : String
  effect : String
  resource_name : String
  delta : Int
  reason : String
deriving Repr, DecidableEq

/-- Modelled from the spec: schema validation of a raw tool call into the
tagged-variant representation, with unknown action names mapped to the
explicit `unknown` variant rather than dropped. -/
def parseInvocation (raw : RawInvocation) : Invocation :=
  if raw.action = "update_player_hp" then
    .update_player_hp raw.player raw.delta raw.reason
  else if raw.action = "apply_status_effect" then
    .apply_status_effect raw.player raw.effect
  else if raw.action = "remove_status_effect" then
    .remove_status_effect raw.player raw.effect
  else if raw.action = "update_player_resource" then
    .update_player_resource raw.player raw.resource_name raw.delta
  else if raw.action = "next_round" then
    .next_round
  else
    .unknown raw.action

/-! ### The session-creation front end (CreateSessionModal) -/

/-- One row of the front end player roster: the name and hp input values
(the hp input value is a string, initially "100"). -/
structure RosterEntry where
  name : String
  hp : String
deriving Repr, DecidableEq

/-- The initial roster: one empty row with hp "100". -/
def initRoster : List RosterEntry := [⟨"", "100"⟩]

/-- The roster-editing events of the modal. -/
inductive RosterEvent where
  | addPlayer
  | removePlayer (i : Nat)
  | updateName (i : Nat) (v : String)
  | updateHp (i : Nat) (v : String)
deriving Repr, DecidableEq

/-- Apply a function to the entry at one index, if in range. -/
def updateAt : List RosterEntry → Nat → (RosterEntry → RosterEntry) → List RosterEntry
  | [], _, _ => []
  | e :: rest, 0, f => f e :: rest
  | e :: rest, n + 1, f => e :: updateAt rest n f

/-- One roster-editing step: `addPlayer` refuses a ninth row,
`removePlayer` refuses to drop the last row, updates rewrite one field. -/
def rosterStep (roster : List RosterEntry) : RosterEvent → List RosterEntry
  | .addPlayer =>
      if roster.length ≥ 8 then roster else roster ++ [⟨"", "100"⟩]
  | .removePlayer i =>
      if roster.length ≤ 1 then roster else roster.eraseIdx i
  | .updateName i v => updateAt roster i (fun e => { e with name := v })
  | .updateHp i v => updateAt roster i (fun e => { e with hp := v })

/-- JavaScript whitespace, for the characters the inputs can carry. -/
def isJsWhitespace (c : Char) : Bool :=
  c == ' ' || c == '\t' || c == '\n' || c == '\r'

/-- JavaScript String.prototype.trim: strip whitespace from both ends. -/
def jsTrim (s : String) : String :=
  String.mk (((s.data.dropWhile isJsWhitespace).reverse.dropWhile isJsWhitespace).reverse)

/-- Fold a digit list into a natural number. -/
def digitsToNat (ds : List Char) : Nat :=
  ds.foldl (fun acc c => acc * 10 + (c.toNat - 48)) 0

/-- JavaScript parseInt on a decimal string: after skipping leading
whitespace, an optional sign followed by the longest leading digit run;
NaN (none) when no digit follows. -/
def jsParseInt (s : String) : Option Int :=
  let cs := s.data.dropWhile isJsWhitespace
  let signed : Int × List Char :=
    match cs with
    | '-' :: r => (-1, r)
    | '+' :: r => (1, r)
    | r => (1, r)
  let digits := signed.2.takeWhile Char.isDigit
  if digits.isEmpty then none
  else some (signed.1 * (digitsToNat digits : Int))

/-- The hp the front end submits: `parseInt(value) || 100`, i.e. 100
whenever the value does not parse to a nonzero integer. -/
def parseIntOr100 (v : String) : Int :=
  match jsParseInt v with
  | none => 100
  | some q => if q = 0 then 100 else q

/-- The submit-time errors of the modal. -/
inductive SubmitError where
  | noValidPlayers
  | duplicateNames
deriving Repr, DecidableEq

/-- The modal submit handler: drops empty-name rows, requires at least
one remaining row and pairwise distinct trimmed names, and posts each
player with hp = max_hp = parseInt(entered hp) || 100. -/
def handleSubmit (roster : List RosterEntry) : Except SubmitError (List PlayerInit) :=
  let valid := roster.filter (fun e => !(jsTrim e.name == ""))
  if valid.length = 0 then
    .error .noValidPlayers
  else if (valid.map (fun e => jsTrim e.name)).dedup.length
      ≠ (valid.map (fun e => jsTrim e.name)).length then
    .error .duplicateNames
  else
    .ok (valid.map (fun e => ⟨jsTrim e.name, parseIntOr100 e.hp, parseIntOr100 e.hp⟩))

/-- A concrete player-creation payload. -/
def sampleInits : List PlayerInit :=
  [{ name := "A", hp := 30, max_hp := 30 }, { name := "B", hp := 25, max_hp := 25 }]

/-- A concrete roster-editing history for the modal. -/
def rosterEvsW : List RosterEvent :=
  [.updateName 0 "Alice", .updateHp 0 "0"]

/-- The payload the modal submits after `rosterEvsW`. -/
def payloadW : List PlayerInit :=
  [{ name := "Alice", hp := 100, max_hp := 100 }]

/-! ### Invariants of the data model -/

/-- Health invariant: every player's hp lies in [0, max_hp]. -/
def hpInvariant (s : Session) : Prop :=
  ∀ p ∈ s.players, 0 ≤ p.hp ∧ p.hp ≤ p.max_hp

/-- Player names are unique within a session. -/
def namesNodup (s : Session) : Prop :=
  (s.players.map Player.name).Nodup

/-- No status effect set contains duplicate labels. -/
def effectsNodup (s : Session) : Prop :=
  ∀ p ∈ s.players, p.status_effects.Nodup

/-- Resource invariant: every stored quantity of a resource not flagged
allow-negative is nonnegative. -/
def resInvariant (s : Session) : Prop :=
  ∀ p ∈ s.players, ∀ kv ∈ p.resources,
    s.allow_negative.contains kv.1 = true ∨ 0 ≤ kv.2

/-! ### Concrete sessions used to evaluate the theorems -/

/-- A concrete player: 80 hp out of 100, 5 gold. -/
def samplePlayerA : Player :=
  { name := "A", hp := 80, max_hp := 100, status_effects := [], resources := [("gold", 5)] }

/-- A concrete player: 15 hp out of 20. -/
def samplePlayerB : Player :=
  { name := "B", hp := 15, max_hp := 20, status_effects := [], resources := [] }

/-- A concrete two-player session. -/
def sample : Session :=
  { session_id := "sess-1", game_id := "game-1",
    players := [samplePlayerA, samplePlayerB],
    round := 1, current_player := "A", allow_negative := [] }

/-! ### Helper lemmas -/

theorem clamp_nonneg (x m : Int) : 0 ≤ clamp x 0 m :=
  le_max_left 0 _

theorem clamp_le (x m : Int) (hm : 0 ≤ m) : clamp x 0 m ≤ m :=
  max_le hm (min_le_right x m)

theorem names_map_update (l : List Player) (n : String) (f : Player → Player)
    (hf : ∀ p, (f p).name = p.name) :
    (l.map (fun p => if p.name == n then f p else p)).map Player.name
      = l.map Player.name := by
  rw [List.map_map]
  apply List.map_congr_left
  intro p _
  by_cases h : p.name = n <;> simp [h, hf]

theorem find?_map_update (l : List Player) (n : String) (f : Player → Player)
    (hf : ∀ p, (f p).name = p.name) :
    (l.map (fun p => if p.name == n then f p else p)).find? (fun p => p.name == n)
      = (l.find? (fun p => p.name == n)).map f := by
  induction l with
  | nil => rfl
  | cons p rest ih =>
      by_cases h : p.name = n
      · simp [h, hf]
      · simpa [h] using ih

theorem findPlayer_mapPlayer (s : Session) (n : String) (f : Player → Player)
    (hf : ∀ p, (f p).name = p.name) :
    findPlayer (mapPlayer s n f) n = (findPlayer s n).map f :=
  find?_map_update s.players n f hf

theorem mem_mapPlayer {s : Session} {n : String} {f : Player → Player} {q : Player}
    (h : q ∈ (mapPlayer s n f).players) :
    ∃ p ∈ s.players, q = if p.name == n then f p else p := by
  rw [mapPlayer] at h
  simp only [List.mem_map] at h
  obtain ⟨p, hp, hq⟩ := h
  exact ⟨p, hp, hq.symm⟩

theorem applyBatch_invariant {P : Session → Prop}
    (hstep : ∀ s inv, P s → P (applyInvocation s inv).1) :
    ∀ (invs : List Invocation) (s : Session), P s → P (applyBatch s invs).1 := by
  intro invs
  induction invs with
  | nil => intro s h; exact h
  | cons inv rest ih => intro s h; exact ih _ (hstep s inv h)

theorem hpInvariant_mapPlayer {s : Session} (n : String) (f : Player → Player)
    (h : hpInvariant s)
    (hfp : ∀ p, 0 ≤ p.hp ∧ p.hp ≤ p.max_hp → 0 ≤ (f p).hp ∧ (f p).hp ≤ (f p).max_hp) :
    hpInvariant (mapPlayer s n f) := by
  intro q hq
  obtain ⟨p, hp, rfl⟩ := mem_mapPlayer hq
  by_cases hn : (p.name == n) = true
  · rw [if_pos hn]; exact hfp p (h p hp)
  · rw [if_neg hn]; exact h p hp

theorem hpInvariant_step (s : Session) (inv : Invocation) (h : hpInvariant s) :
    hpInvariant (applyInvocation s inv).1 := by
  cases inv with
  | update_player_hp player delta reason =>
      cases hfind : findPlayer s player with
      | none => simpa [applyInvocation, hfind] using h
      | some p =>
          simp only [applyInvocation, hfind]
          exact hpInvariant_mapPlayer player _ h
            (fun q hq => ⟨clamp_nonneg _ _, clamp_le _ _ (le_trans hq.1 hq.2)⟩)
  | apply_status_effect player effect =>
      cases hfind : findPlayer s player with
      | none => simpa [applyInvocation, hfind] using h
      | some p =>
          simp only [applyInvocation, hfind]
          split
          · exact h
          · exact hpInvariant_mapPlayer player _ h (fun q hq => hq)
  | remove_status_effect player effect =>
      cases hfind : findPlayer s player with
      | none => simpa [applyInvocation, hfind] using h
      | some p =>
          simp only [applyInvocation, hfind]
          split
          · exact hpInvariant_mapPlayer player _ h (fun q hq => hq)
          · exact h
  | update_player_resource player rname delta =>
      cases hfind : findPlayer s player with
      | none => simpa [applyInvocation, hfind] using h
      | some p =>
          simp only [applyInvocation, hfind]
          split
          · exact h
          · exact hpInvariant_mapPlayer player _ h (fun q hq => hq)
  | next_round => exact h
  | unknown kind => exact h

/-- C1: after any Transition Engine batch, every player's hp stays in
[0, max_hp]; an hp delta is applied unconditionally (never rejected for
overshoot) whenever the player is in the session; and an 80-hp player
receiving a -200 delta ends at exactly 0. -/
theorem spec_C1 :
    (∀ (s : Session) (invs : List Invocation),
        hpInvariant s → hpInvariant (applyBatch s invs).1) ∧
    (∀ (s : Session) (name : String) (p : Player) (r : String) (d : Int),
        findPlayer s name = some p →
        (applyInvocation s (.update_player_hp name d r)).2.status
          = ChangeStatus.applied false) ∧
    (∀ (s : Session) (name : String) (p : Player) (r : String),
        findPlayer s name = some p → p.hp = 80 → 80 ≤ p.max_hp →
        getPlayerHp (applyInvocation s (.update_player_hp name (-200) r)).1 name
          = some 0) := by
  refine ⟨?_, ?_, ?_⟩
  · intro s invs h
    exact applyBatch_invariant hpInvariant_step invs s h
  · intro s name p r d hfind
    simp [applyInvocation, hfind]
  · intro s name p r hfind hhp hmax
    simp only [applyInvocation, hfind]
    have hmapped := findPlayer_mapPlayer s name
      (fun q => { q with hp := clamp (q.hp + (-200)) 0 q.max_hp }) (fun q => rfl)
    rw [getPlayerHp, hmapped, hfind]
    have h1 : min (p.hp + (-200)) p.max_hp = p.hp + (-200) :=
      min_eq_left (by omega)
    have h2 : max (0 : Int) (p.hp + (-200)) = 0 :=
      max_eq_left (by omega)
    simp [clamp, h1, h2]

/-- Witness for C1 on the concrete sample session. -/
theorem spec_C1_witness :
    hpInvariant (applyBatch sample
      [Invocation.update_player_hp "A" (-200) "hit",
       Invocation.update_player_hp "B" 500 "heal"]).1 ∧
    (applyInvocation sample (Invocation.update_player_hp "A" (-7) "hit")).2.status
      = ChangeStatus.applied false ∧
    getPlayerHp (applyInvocation sample
      (Invocation.update_player_hp "A" (-200) "hit")).1 "A" = some 0 := by
  refine ⟨spec_C1.1 sample _ ?_,
    spec_C1.2.1 sample "A" samplePlayerA "hit" (-7) (by decide),
    spec_C1.2.2 sample "A" samplePlayerA "hit" (by decide) (by decide) (by decide)⟩
  unfold hpInvariant
  decide

/-- C2: the Transition Engine processes a batch strictly in list order,
validating each invocation against the in-progress state produced by the
preceding ones; in particular a batch of two -10 hp deltas against a
15-hp player (max_hp ≥ 15) compounds to a final hp of 0. -/
theorem spec_C2 :
    (∀ (s : Session) (inv : Invocation) (rest : List Invocation),
        applyBatch s (inv :: rest)
          = ((applyBatch (applyInvocation s inv).1 rest).1,
             (applyInvocation s inv).2 :: (applyBatch (applyInvocation s inv).1 rest).2)) ∧
    (∀ (s : Session) (name : String) (p : Player) (r1 r2 : String),
        findPlayer s name = some p → p.hp = 15 → 15 ≤ p.max_hp →
        getPlayerHp (applyBatch s
          [Invocation.update_player_hp name (-10) r1,
           Invocation.update_player_hp name (-10) r2]).1 name = some 0) := by
  constructor
  · intro s inv rest
    rfl
  · intro s name p r1 r2 hfind hhp hmax
    have hf1 := findPlayer_mapPlayer s name
      (fun q => { q with hp := clamp (q.hp + (-10)) 0 q.max_hp }) (fun q => rfl)
    simp only [applyBatch, applyInvocation, hfind]
    rw [getPlayerHp]
    rw [hf1, hfind]
    simp only [Option.map_some']
    have hf2 := findPlayer_mapPlayer (mapPlayer s name
        (fun q => { q with hp := clamp (q.hp + (-10)) 0 q.max_hp })) name
      (fun q => { q with hp := clamp (q.hp + (-10)) 0 q.max_hp }) (fun q => rfl)
    rw [hf2, hf1, hfind]
    simp only [Option.map_some', clamp, Option.some.injEq]
    omega

/-- Witness for C2 on the concrete sample session. -/
theorem spec_C2_witness :
    (applyBatch sample (Invocation.next_round :: [])
       = ((applyBatch (applyInvocation sample Invocation.next_round).1 []).1,
          (applyInvocation sample Invocation.next_round).2
            :: (applyBatch (applyInvocation sample Invocation.next_round).1 []).2)) ∧
    getPlayerHp (applyBatch sample
      [Invocation.update_player_hp "B" (-10) "hit",
       Invocation.update_player_hp "B" (-10) "hit"]).1 "B" = some 0 :=
  ⟨spec_C2.1 sample Invocation.next_round [],
   spec_C2.2 sample "B" samplePlayerB "hit" "hit" (by decide) (by decide) (by decide)⟩

theorem getD_eq_get {α : Type} (l : List α) (d : α) {j : Nat} (h : j < l.length) :
    l.getD j d = l.get ⟨j, h⟩ := by
  simp [List.getD_eq_getElem?_getD, List.getElem?_eq_getElem h]

theorem nextRound_players (s : Session) : (nextRound s).players = s.players := rfl

theorem nextRound_at_index (s : Session) (i : Nat)
    (hnd : (playerNames s).Nodup)
    (hi : i < (playerNames s).length)
    (hc : s.current_player = (playerNames s).getD i "") :
    (nextRound s).current_player
      = (playerNames s).getD ((i + 1) % (playerNames s).length) "" ∧
    (nextRound s).round
      = (if i + 1 = (playerNames s).length then s.round + 1 else s.round) := by
  have hn : 0 < (playerNames s).length := Nat.lt_of_le_of_lt (Nat.zero_le i) hi
  have hidx : (playerNames s).indexOf s.current_player = i := by
    rw [hc, getD_eq_get _ _ hi]
    simpa using List.indexOf_getElem hnd i hi
  constructor
  · show (playerNames s).getD
        (((playerNames s).indexOf s.current_player + 1) % (playerNames s).length)
        s.current_player = _
    rw [hidx]
    have hj : (i + 1) % (playerNames s).length < (playerNames s).length :=
      Nat.mod_lt _ hn
    rw [getD_eq_get _ _ hj, getD_eq_get _ _ hj]
  · show (if (playerNames s).indexOf s.current_player + 1 = (playerNames s).length
          then s.round + 1 else s.round) = _
    rw [hidx]

theorem replicate_nextRound (k : Nat) :
    ∀ (s : Session) (i : Nat), (playerNames s).Nodup →
      ∀ (hi : i < (playerNames s).length),
      s.current_player = (playerNames s).getD i "" →
      (applyBatch s (List.replicate k Invocation.next_round)).1.players = s.players ∧
      (applyBatch s (List.replicate k Invocation.next_round)).1.current_player
        = (playerNames s).getD ((i + k) % (playerNames s).length) "" ∧
      (applyBatch s (List.replicate k Invocation.next_round)).1.round
        = s.round + (i + k) / (playerNames s).length := by
  induction k with
  | zero =>
      intro s i hnd hi hc
      refine ⟨rfl, ?_, ?_⟩
      · rw [Nat.add_zero, Nat.mod_eq_of_lt hi]
        exact hc
      · rw [Nat.add_zero, Nat.div_eq_of_lt hi]
        rfl
  | succ k ih =>
      intro s i hnd hi hc
      have hn : 0 < (playerNames s).length := Nat.lt_of_le_of_lt (Nat.zero_le i) hi
      obtain ⟨hcur, hrnd⟩ := nextRound_at_index s i hnd hi hc
      have hnames : playerNames (nextRound s) = playerNames s := rfl
      have hj : (i + 1) % (playerNames s).length < (playerNames s).length :=
        Nat.mod_lt _ hn
      have hrep : List.replicate (k + 1) Invocation.next_round
          = Invocation.next_round :: List.replicate k Invocation.next_round :=
        List.replicate_succ _ _
      have hbatch : (applyBatch s (List.replicate (k + 1) Invocation.next_round)).1
          = (applyBatch (nextRound s) (List.replicate k Invocation.next_round)).1 := by
        rw [hrep]
        rfl
      have ihs := ih (nextRound s) ((i + 1) % (playerNames s).length) hnd hj
        (by rw [hnames, hcur])
      rw [hnames] at ihs
      obtain ⟨ihp, ihc, ihr⟩ := ihs
      refine ⟨?_, ?_, ?_⟩
      · rw [hbatch, ihp, nextRound_players]
      · rw [hbatch, ihc]
        have : ((i + 1) % (playerNames s).length + k) % (playerNames s).length
            = (i + (k + 1)) % (playerNames s).length := by
          rw [Nat.mod_add_mod]
          congr 1
          omega
        rw [this]
      · rw [hbatch, ihr, hrnd]
        by_cases hw : i + 1 = (playerNames s).length
        · rw [if_pos hw]
          have h0 : (i + 1) % (playerNames s).length = 0 := by
            rw [hw, Nat.mod_self]
          have hdiv : (i + (k + 1)) / (playerNames s).length
              = k / (playerNames s).length + 1 := by
            have : i + (k + 1) = k + (playerNames s).length := by omega
            rw [this, Nat.add_div_right _ hn]
          rw [h0, hdiv, Nat.zero_add]
          omega
        · rw [if_neg hw]
          have hlt : i + 1 < (playerNames s).length := Nat.lt_of_le_of_ne hi hw
          have h1 : (i + 1) % (playerNames s).length = i + 1 := Nat.mod_eq_of_lt hlt
          have h2 : i + 1 + k = i + (k + 1) := by omega
          rw [h1, h2]

/-- C3: `next_round()` is always applied; it keeps `current_player` a key
of the player mapping; and applying it N times (N = player count) returns
`current_player` to its original value while incrementing `round` exactly
once. -/
theorem spec_C3 :
    (∀ s : Session, (validate s Invocation.next_round).status
        = ChangeStatus.applied false) ∧
    (∀ s : Session, (playerNames s).Nodup → s.current_player ∈ playerNames s →
      (nextRound s).current_player ∈ playerNames (nextRound s) ∧
      (applyBatch s (List.replicate s.players.length Invocation.next_round)).1.current_player
        = s.current_player ∧
      (applyBatch s (List.replicate s.players.length Invocation.next_round)).1.round
        = s.round + 1) := by
  constructor
  · intro s
    rfl
  · intro s hnd hmem
    have hi : (playerNames s).indexOf s.current_player < (playerNames s).length :=
      List.indexOf_lt_length.2 hmem
    have hn : 0 < (playerNames s).length :=
      Nat.lt_of_le_of_lt (Nat.zero_le _) hi
    have hc : s.current_player
        = (playerNames s).getD ((playerNames s).indexOf s.current_player) "" := by
      rw [getD_eq_get _ _ hi]
      exact (List.indexOf_get hi).symm
    have hlen : s.players.length = (playerNames s).length :=
      (List.length_map _ _).symm
    obtain ⟨hcur, _⟩ := nextRound_at_index s _ hnd hi hc
    obtain ⟨hp, hcyc, hrnd⟩ := replicate_nextRound s.players.length s _ hnd hi hc
    refine ⟨?_, ?_, ?_⟩
    · rw [hcur]
      have hj : ((playerNames s).indexOf s.current_player + 1) % (playerNames s).length
          < (playerNames s).length := Nat.mod_lt _ hn
      rw [getD_eq_get _ _ hj]
      show (playerNames s).get
        ⟨((playerNames s).indexOf s.current_player + 1) % (playerNames s).length, hj⟩
          ∈ playerNames s
      exact List.get_mem _ _ _
    · rw [hcyc, hlen, Nat.add_mod_right,
        Nat.mod_eq_of_lt hi]
      exact hc.symm
    · rw [hrnd, hlen, Nat.add_div_right _ hn, Nat.div_eq_of_lt hi]

/-- Witness for C3 on the concrete sample session. -/
theorem spec_C3_witness :
    (validate sample Invocation.next_round).status = ChangeStatus.applied false ∧
    ((nextRound sample).current_player ∈ playerNames (nextRound sample) ∧
     (applyBatch sample
        (List.replicate sample.players.length Invocation.next_round)).1.current_player
       = sample.current_player ∧
     (applyBatch sample
        (List.replicate sample.players.length Invocation.next_round)).1.round
       = sample.round + 1) :=
  ⟨spec_C3.1 sample, spec_C3.2 sample (by decide) (by decide)⟩

theorem dedup_length_eq_iff (l : List String) :
    l.dedup.length = l.length ↔ l.Nodup := by
  constructor
  · intro h
    have heq : l.dedup = l := l.dedup_sublist.eq_of_length h
    rw [← heq]
    exact l.nodup_dedup
  · intro h
    rw [List.dedup_eq_self.2 h]

/-- C4: `create(game_id, players)` fails with DuplicatePlayerName exactly
when two players share a name; otherwise the new session has round 1,
current_player the first given player, every player at their specified
starting health, and empty effect sets and resource mappings. -/
theorem spec_C4 (gid : String) (inits : List PlayerInit) :
    (create gid inits = .error CreateError.DuplicatePlayerName
       ↔ ¬ (inits.map PlayerInit.name).Nodup) ∧
    (∀ s : Session, create gid inits = .ok s →
      s.round = 1 ∧
      (∀ first rest, inits = first :: rest → s.current_player = first.name) ∧
      s.players.map Player.name = inits.map PlayerInit.name ∧
      (∀ p ∈ s.players, p.status_effects = [] ∧ p.resources = [] ∧
        ∃ init ∈ inits, p.name = init.name ∧ p.hp = init.hp ∧ p.max_hp = init.max_hp)) := by
  constructor
  · rw [← not_iff_not.2 (dedup_length_eq_iff (inits.map PlayerInit.name))]
    rw [create]
    by_cases hC : (inits.map PlayerInit.name).dedup.length
        = (inits.map PlayerInit.name).length
    · simp [hC]
    · simp [hC]
  · intro s h
    rw [create] at h
    split at h
    · cases h
    · cases h
      refine ⟨rfl, ?_, ?_, ?_⟩
      · intro first rest hinits
        rw [hinits]
        rfl
      · rw [List.map_map]
        apply List.map_congr_left
        intro i _
        rfl
      · intro p hp
        simp only [List.mem_map] at hp
        obtain ⟨init, hinit, rfl⟩ := hp
        exact ⟨rfl, rfl, init, hinit, rfl, rfl, rfl⟩

/-- Witness for C4: a colliding payload is refused, and a valid payload
creates the expected session. -/
theorem spec_C4_witness :
    (create "g" [{ name := "A", hp := 30, max_hp := 30 },
                 { name := "A", hp := 25, max_hp := 25 }]
       = .error CreateError.DuplicatePlayerName) ∧
    ((create "g" sampleInits).toOption.elim True (fun s =>
      s.round = 1 ∧ s.current_player = "A")) := by
  constructor
  · exact (spec_C4 "g" _).1.2 (by decide)
  · have h : create "g" sampleInits
        = .ok { session_id := "g-session", game_id := "g",
                players := [{ name := "A", hp := 30, max_hp := 30,
                              status_effects := [], resources := [] },
                            { name := "B", hp := 25, max_hp := 25,
                              status_effects := [], resources := [] }],
                round := 1, current_player := "A", allow_negative := [] } := by
      rfl
    obtain ⟨h1, h2, _, _⟩ := (spec_C4 "g" sampleInits).2 _ h
    rw [h]
    exact ⟨h1, h2 _ _ rfl⟩

theorem mem_updateAssoc {l : List (String × Int)} {r : String} {q : Int}
    {kv : String × Int} (h : kv ∈ updateAssoc l r q) : kv = (r, q) ∨ kv ∈ l := by
  induction l with
  | nil => simpa [updateAssoc] using h
  | cons hd tl ih =>
      obtain ⟨k, v⟩ := hd
      rw [updateAssoc] at h
      by_cases hk : (k == r) = true
      · rw [if_pos hk] at h
        rcases List.mem_cons.1 h with h1 | h1
        · exact Or.inl h1
        · exact Or.inr (List.mem_cons_of_mem _ h1)
      · rw [if_neg hk] at h
        rcases List.mem_cons.1 h with h1 | h1
        · exact Or.inr (h1 ▸ List.mem_cons_self _ _)
        · rcases ih h1 with h2 | h2
          · exact Or.inl h2
          · exact Or.inr (List.mem_cons_of_mem _ h2)

theorem resInvariant_mapPlayer {s : Session} (n : String) (f : Player → Player)
    (h : resInvariant s)
    (hfr : ∀ p, (∀ kv ∈ p.resources, s.allow_negative.contains kv.1 = true ∨ 0 ≤ kv.2) →
      ∀ kv ∈ (f p).resources, s.allow_negative.contains kv.1 = true ∨ 0 ≤ kv.2) :
    resInvariant (mapPlayer s n f) := by
  intro q hq kv hkv
  obtain ⟨p, hp, rfl⟩ := mem_mapPlayer hq
  show s.allow_negative.contains kv.1 = true ∨ 0 ≤ kv.2
  by_cases hn : (p.name == n) = true
  · rw [if_pos hn] at hkv
    exact hfr p (h p hp) kv hkv
  · rw [if_neg hn] at hkv
    exact h p hp kv hkv

theorem resInvariant_step (s : Session) (inv : Invocation) (h : resInvariant s) :
    resInvariant (applyInvocation s inv).1 := by
  cases inv with
  | update_player_hp player delta reason =>
      cases hfind : findPlayer s player with
      | none => simpa [applyInvocation, hfind] using h
      | some p =>
          simp only [applyInvocation, hfind]
          exact resInvariant_mapPlayer player _ h (fun q hq => hq)
  | apply_status_effect player effect =>
      cases hfind : findPlayer s player with
      | none => simpa [applyInvocation, hfind] using h
      | some p =>
          simp only [applyInvocation, hfind]
          split
          · exact h
          · exact resInvariant_mapPlayer player _ h (fun q hq => hq)
  | remove_status_effect player effect =>
      cases hfind : findPlayer s player with
      | none => simpa [applyInvocation, hfind] using h
      | some p =>
          simp only [applyInvocation, hfind]
          split
          · exact resInvariant_mapPlayer player _ h (fun q hq => hq)
          · exact h
  | update_player_resource player rname delta =>
      cases hfind : findPlayer s player with
      | none => simpa [applyInvocation, hfind] using h
      | some p =>
          simp only [applyInvocation, hfind]
          split
          · exact h
          · next hguard =>
              apply resInvariant_mapPlayer player _ h
              intro pl hpl kv hkv
              rcases mem_updateAssoc hkv with heq | hold
              · rw [heq]
                simp only [Bool.and_eq_true, Bool.not_eq_true', decide_eq_true_eq,
                  not_and] at hguard
                by_cases hal : s.allow_negative.contains rname = true
                · exact Or.inl hal
                · right
                  by_cases hneg : getResource p rname + delta < 0
                  · cases hb : s.allow_negative.contains rname with
                    | true => exact absurd hb hal
                    | false => exact absurd hb (hguard hneg)
                  · omega
              · exact hpl kv hold
  | next_round => exact h
  | unknown kind => exact h

/-- C5: an `update_player_resource` invocation is rejected exactly when
the player is absent or the resulting quantity would be negative while
the resource is not flagged allow-negative; and after any Transition
Engine batch every non-allow-negative stored quantity is ≥ 0. -/
theorem spec_C5 :
    (∀ (s : Session) (pname rname : String) (d : Int),
        (validate s (.update_player_resource pname rname d)).status.isRejected = true
          ↔ (findPlayer s pname = none ∨
             ∃ p, findPlayer s pname = some p ∧ getResource p rname + d < 0 ∧
               s.allow_negative.contains rname = false)) ∧
    (∀ (s : Session) (invs : List Invocation),
        resInvariant s → resInvariant (applyBatch s invs).1) := by
  constructor
  · intro s pname rname d
    rw [validate]
    cases hfind : findPlayer s pname with
    | none => simp [applyInvocation, hfind, ChangeStatus.isRejected]
    | some p =>
        simp only [applyInvocation, hfind]
        by_cases hcond : (decide (getResource p rname + d < 0)
            && !(s.allow_negative.contains rname)) = true
        · rw [if_pos hcond]
          rw [Bool.and_eq_true, decide_eq_true_eq, Bool.not_eq_true'] at hcond
          constructor
          · intro _
            exact Or.inr ⟨p, rfl, hcond.1, hcond.2⟩
          · intro _
            rfl
        · rw [if_neg hcond]
          constructor
          · intro hfalse
            exact absurd hfalse (by simp [ChangeStatus.isRejected])
          · intro hrhs
            rcases hrhs with hnone | ⟨p2, hp2, hneg2, hal2⟩
            · cases hnone
            · cases hp2
              refine absurd ?_ hcond
              rw [Bool.and_eq_true, decide_eq_true_eq, Bool.not_eq_true']
              exact ⟨hneg2, hal2⟩
  · intro s invs h
    exact applyBatch_invariant resInvariant_step invs s h

/-- Witness for C5 on the concrete sample session. -/
theorem spec_C5_witness :
    (validate sample
      (Invocation.update_player_resource "A" "gold" (-10))).status.isRejected = true ∧
    resInvariant (applyBatch sample
      [Invocation.update_player_resource "A" "gold" (-3)]).1 := by
  constructor
  · exact (spec_C5.1 sample "A" "gold" (-10)).2
      (Or.inr ⟨samplePlayerA, by decide, by decide, by decide⟩)
  · refine spec_C5.2 sample _ ?_
    unfold resInvariant
    decide

theorem findPlayer_unique {s : Session} {n : String} {p q : Player}
    (hnd : namesNodup s) (hfind : findPlayer s n = some p)
    (hq : q ∈ s.players) (hname : (q.name == n) = true) : q = p := by
  have h0 : s.players.find? (fun q => q.name == n) = some p := hfind
  have hp_mem : p ∈ s.players := List.mem_of_find?_eq_some h0
  have hp_name : (p.name == n) = true := by
    have h1 := List.find?_some h0
    exact h1
  have heq : q.name = p.name := by
    have h1 : q.name = n := by simpa using hname
    have h2 : p.name = n := by simpa using hp_name
    rw [h1, h2]
  exact List.inj_on_of_nodup_map hnd hq hp_mem heq

theorem players_names_step (s : Session) (inv : Invocation) :
    (applyInvocation s inv).1.players.map Player.name = s.players.map Player.name := by
  cases inv with
  | update_player_hp player delta reason =>
      cases hfind : findPlayer s player with
      | none => simp [applyInvocation, hfind]
      | some p =>
          simp only [applyInvocation, hfind]
          exact names_map_update _ _ _ (fun q => rfl)
  | apply_status_effect player effect =>
      cases hfind : findPlayer s player with
      | none => simp [applyInvocation, hfind]
      | some p =>
          simp only [applyInvocation, hfind]
          split
          · rfl
          · exact names_map_update _ _ _ (fun q => rfl)
  | remove_status_effect player effect =>
      cases hfind : findPlayer s player with
      | none => simp [applyInvocation, hfind]
      | some p =>
          simp only [applyInvocation, hfind]
          split
          · exact names_map_update _ _ _ (fun q => rfl)
          · rfl
  | update_player_resource player rname delta =>
      cases hfind : findPlayer s player with
      | none => simp [applyInvocation, hfind]
      | some p =>
          simp only [applyInvocation, hfind]
          split
          · rfl
          · exact names_map_update _ _ _ (fun q => rfl)
  | next_round => rfl
  | unknown kind => rfl

theorem namesNodup_step (s : Session) (inv : Invocation) (h : namesNodup s) :
    namesNodup (applyInvocation s inv).1 := by
  rw [namesNodup, players_names_step]
  exact h

theorem effectsNodup_step (s : Session) (inv : Invocation)
    (hnd : namesNodup s) (h : effectsNodup s) :
    effectsNodup (applyInvocation s inv).1 := by
  cases inv with
  | update_player_hp player delta reason =>
      cases hfind : findPlayer s player with
      | none => simpa [applyInvocation, hfind] using h
      | some p =>
          simp only [applyInvocation, hfind]
          intro q hq
          obtain ⟨pl, hpl, rfl⟩ := mem_mapPlayer hq
          by_cases hn : (pl.name == player) = true
          · rw [if_pos hn]; exact h pl hpl
          · rw [if_neg hn]; exact h pl hpl
  | apply_status_effect player effect =>
      cases hfind : findPlayer s player with
      | none => simpa [applyInvocation, hfind] using h
      | some p =>
          simp only [applyInvocation, hfind]
          split
          · exact h
          · next hcont =>
              intro q hq
              obtain ⟨pl, hpl, rfl⟩ := mem_mapPlayer hq
              by_cases hn : (pl.name == player) = true
              · rw [if_pos hn]
                have hplp : pl = p := findPlayer_unique hnd hfind hpl hn
                subst hplp
                show (pl.status_effects ++ [effect]).Nodup
                rw [List.nodup_append]
                refine ⟨h pl hpl, List.nodup_singleton _, ?_⟩
                intro a ha hb
                rw [List.mem_singleton] at hb
                subst hb
                exact hcont (List.elem_iff.2 ha)
              · rw [if_neg hn]; exact h pl hpl
  | remove_status_effect player effect =>
      cases hfind : findPlayer s player with
      | none => simpa [applyInvocation, hfind] using h
      | some p =>
          simp only [applyInvocation, hfind]
          split
          · intro q hq
            obtain ⟨pl, hpl, rfl⟩ := mem_mapPlayer hq
            by_cases hn : (pl.name == player) = true
            · rw [if_pos hn]
              exact (h pl hpl).erase _
            · rw [if_neg hn]; exact h pl hpl
          · exact h
  | update_player_resource player rname delta =>
      cases hfind : findPlayer s player with
      | none => simpa [applyInvocation, hfind] using h
      | some p =>
          simp only [applyInvocation, hfind]
          split
          · exact h
          · intro q hq
            obtain ⟨pl, hpl, rfl⟩ := mem_mapPlayer hq
            by_cases hn : (pl.name == player) = true
            · rw [if_pos hn]; exact h pl hpl
            · rw [if_neg hn]; exact h pl hpl
  | next_round => exact h
  | unknown kind => exact h

/-- C6: `apply_status_effect` is idempotent — re-applying an effect that
is already present leaves the state unchanged and is reported as
applied-but-no-op — and the effect sets never acquire duplicate labels. -/
theorem spec_C6 :
    (∀ (s : Session) (pname effect : String) (p : Player),
        findPlayer s pname = some p →
        (applyInvocation (applyInvocation s (.apply_status_effect pname effect)).1
            (.apply_status_effect pname effect)).1
          = (applyInvocation s (.apply_status_effect pname effect)).1 ∧
        (applyInvocation (applyInvocation s (.apply_status_effect pname effect)).1
            (.apply_status_effect pname effect)).2.status
          = ChangeStatus.applied true) ∧
    (∀ (s : Session) (invs : List Invocation),
        namesNodup s → effectsNodup s → effectsNodup (applyBatch s invs).1) := by
  constructor
  · intro s pname effect p hfind
    cases hcont : p.status_effects.contains effect with
    | true =>
        constructor
        · simp only [applyInvocation, hfind, if_pos hcont]
        · simp only [applyInvocation, hfind, if_pos hcont]
    | false =>
        have hnc : ¬ (p.status_effects.contains effect = true) := by
          rw [hcont]; simp
        have hf := findPlayer_mapPlayer s pname
          (fun q => { q with status_effects := q.status_effects ++ [effect] })
          (fun q => rfl)
        have hs1 : (applyInvocation s (.apply_status_effect pname effect)).1
            = mapPlayer s pname
                (fun q => { q with status_effects := q.status_effects ++ [effect] }) := by
          simp only [applyInvocation, hfind, if_neg hnc]
        have hcont1 : ({ p with status_effects := p.status_effects ++ [effect]
            } : Player).status_effects.contains effect = true := by
          apply List.elem_iff.2
          exact List.mem_append_right _ (List.mem_singleton_self _)
        constructor
        · rw [hs1]
          simp only [applyInvocation]
          rw [hf, hfind]
          simp only [Option.map_some']
          rw [if_pos hcont1]
        · rw [hs1]
          simp only [applyInvocation]
          rw [hf, hfind]
          simp only [Option.map_some']
          rw [if_pos hcont1]
  · intro s invs hnd he
    have hstep : ∀ (t : Session) (inv : Invocation),
        (namesNodup t ∧ effectsNodup t) →
        (namesNodup (applyInvocation t inv).1 ∧ effectsNodup (applyInvocation t inv).1) :=
      fun t inv ht => ⟨namesNodup_step t inv ht.1, effectsNodup_step t inv ht.1 ht.2⟩
    exact (applyBatch_invariant hstep invs s ⟨hnd, he⟩).2

/-- Witness for C6 on the concrete sample session. -/
theorem spec_C6_witness :
    (applyInvocation (applyInvocation sample (.apply_status_effect "A" "burn")).1
        (.apply_status_effect "A" "burn")).1
      = (applyInvocation sample (.apply_status_effect "A" "burn")).1 ∧
    (applyInvocation (applyInvocation sample (.apply_status_effect "A" "burn")).1
        (.apply_status_effect "A" "burn")).2.status = ChangeStatus.applied true ∧
    effectsNodup (applyBatch sample
      [Invocation.apply_status_effect "A" "burn",
       Invocation.apply_status_effect "A" "burn"]).1 := by
  obtain ⟨h1, h2⟩ := spec_C6.1 sample "A" "burn" samplePlayerA (by decide)
  refine ⟨h1, h2, spec_C6.2 sample _ ?_ ?_⟩
  · unfold namesNodup
    decide
  · unfold effectsNodup
    decide

/-- C7: removing an effect that is not present on a player in the session
is applied-but-no-op: the StateChange carries status applied (never a
rejection or an error) and the state is left unchanged. -/
theorem spec_C7 (s : Session) (p : Player) (e : String)
    (hnd : namesNodup s) (hp : p ∈ s.players) (he : e ∉ p.status_effects) :
    applyInvocation s (.remove_status_effect p.name e)
      = (s, ⟨.remove_status_effect p.name e, ChangeStatus.applied true⟩) := by
  have hex : (s.players.find? (fun q => q.name == p.name)).isSome :=
    List.find?_isSome.2 ⟨p, hp, by simp⟩
  obtain ⟨q, hq⟩ := Option.isSome_iff_exists.1 hex
  have hq_mem : q ∈ s.players := List.mem_of_find?_eq_some hq
  have hq_name : (q.name == p.name) = true := by
    have h1 := List.find?_some hq
    exact h1
  have hpq : p = q := findPlayer_unique hnd hq hp (by simp)
  subst hpq
  have hnc : ¬ (p.status_effects.contains e = true) :=
    fun hc => he (List.elem_iff.1 hc)
  have hfind : findPlayer s p.name = some p := hq
  simp only [applyInvocation, hfind, if_neg hnc]

/-- Witness for C7 on the concrete sample session. -/
theorem spec_C7_witness :
    applyInvocation sample (.remove_status_effect samplePlayerA.name "burn")
      = (sample, ⟨.remove_status_effect samplePlayerA.name "burn",
                  ChangeStatus.applied true⟩) :=
  spec_C7 sample samplePlayerA "burn" (by unfold namesNodup; decide)
    (by decide) (by decide)

/-- C8: every invocation whose action name is not one of the five
recognized kinds is rejected with reason "unrecognized action" and leaves
the state unchanged; and no invocation is silently dropped — a batch
always produces exactly one StateChange per invocation. -/
theorem spec_C8 :
    (∀ (s : Session) (raw : RawInvocation),
        raw.action ∉ recognizedKinds →
        applyInvocation s (parseInvocation raw)
          = (s, ⟨Invocation.unknown raw.action,
                 ChangeStatus.rejected "unrecognized action"⟩)) ∧
    (∀ (s : Session) (invs : List Invocation),
        (applyBatch s invs).2.length = invs.length) := by
  constructor
  · intro s raw h
    simp only [recognizedKinds, List.mem_cons, List.not_mem_nil, or_false,
      not_or] at h
    obtain ⟨h1, h2, h3, h4, h5⟩ := h
    simp [parseInvocation, h1, h2, h3, h4, h5, applyInvocation]
  · intro s invs
    induction invs generalizing s with
    | nil => rfl
    | cons inv rest ih =>
        simp [applyBatch, ih]

/-- Witness for C8: a made-up action name is rejected untouched. -/
theorem spec_C8_witness :
    applyInvocation sample (parseInvocation
      { action := "cast_fireball", player := "A", effect := "",
        resource_name := "", delta := 0, reason := "" })
      = (sample, ⟨Invocation.unknown "cast_fireball",
                  ChangeStatus.rejected "unrecognized action"⟩) ∧
    (applyBatch sample [Invocation.next_round]).2.length = 1 :=
  ⟨spec_C8.1 sample _ (by decide), spec_C8.2 sample [Invocation.next_round]⟩

theorem length_updateAt (l : List RosterEntry) (i : Nat) (f : RosterEntry → RosterEntry) :
    (updateAt l i f).length = l.length := by
  induction l generalizing i with
  | nil => rfl
  | cons e rest ih =>
      cases i with
      | zero => rfl
      | succ j => simp [updateAt, ih]

theorem rosterStep_bounds (r : List RosterEntry) (ev : RosterEvent)
    (h : 1 ≤ r.length ∧ r.length ≤ 8) :
    1 ≤ (rosterStep r ev).length ∧ (rosterStep r ev).length ≤ 8 := by
  cases ev with
  | addPlayer =>
      rw [rosterStep]
      split
      · exact h
      · next hlt =>
          rw [List.length_append]
          simp only [List.length_cons, List.length_nil]
          omega
  | removePlayer i =>
      rw [rosterStep]
      split
      · exact h
      · next hgt =>
          rw [List.length_eraseIdx]
          split <;> omega
  | updateName i v =>
      rw [rosterStep, length_updateAt]
      exact h
  | updateHp i v =>
      rw [rosterStep, length_updateAt]
      exact h

theorem foldl_rosterStep_bounds (evs : List RosterEvent) :
    ∀ r : List RosterEntry, 1 ≤ r.length ∧ r.length ≤ 8 →
      1 ≤ (evs.foldl rosterStep r).length ∧ (evs.foldl rosterStep r).length ≤ 8 := by
  induction evs with
  | nil => intro r h; exact h
  | cons ev rest ih => intro r h; exact ih _ (rosterStep_bounds r ev h)

theorem handleSubmit_ok (roster : List RosterEntry) (payload : List PlayerInit)
    (h : handleSubmit roster = .ok payload) :
    1 ≤ payload.length ∧ payload.length ≤ roster.length ∧
    ∀ pi ∈ payload, pi.name ≠ "" ∧ pi.hp = pi.max_hp ∧
      ∃ e ∈ roster, pi.name = jsTrim e.name ∧ pi.hp = parseIntOr100 e.hp := by
  rw [handleSubmit] at h
  split at h
  · cases h
  · next hlen =>
      split at h
      · cases h
      · cases h
        refine ⟨Nat.one_le_iff_ne_zero.2 (by simpa [List.length_map] using hlen), ?_, ?_⟩
        · rw [List.length_map]
          exact List.length_filter_le _ _
        · intro pi hpi
          simp only [List.mem_map] at hpi
          obtain ⟨e, he, rfl⟩ := hpi
          rw [List.mem_filter] at he
          obtain ⟨he_mem, he_pred⟩ := he
          refine ⟨?_, rfl, e, he_mem, rfl, rfl⟩
          intro hblank
          rw [Bool.not_eq_true', beq_eq_false_iff_ne] at he_pred
          exact he_pred hblank

/-- C10: the session-creation modal submits only rosters of 1 to 8
players: empty-name rows are filtered out, at least one non-empty name is
required, a ninth row is refused; every submitted player has hp equal to
max_hp, obtained as parseInt of the entered value with 100 substituted
whenever that value does not parse to a nonzero integer. -/
theorem spec_C10 :
    (∀ (evs : List RosterEvent) (payload : List PlayerInit),
        handleSubmit (evs.foldl rosterStep initRoster) = .ok payload →
        1 ≤ payload.length ∧ payload.length ≤ 8 ∧
        ∀ pi ∈ payload, pi.name ≠ "" ∧ pi.hp = pi.max_hp ∧
          ∃ e ∈ evs.foldl rosterStep initRoster,
            pi.name = jsTrim e.name ∧ pi.hp = parseIntOr100 e.hp) ∧
    (∀ v : String, jsParseInt v = none ∨ jsParseInt v = some 0 →
        parseIntOr100 v = 100) := by
  constructor
  · intro evs payload h
    have hb := foldl_rosterStep_bounds evs initRoster (by simp [initRoster])
    obtain ⟨h1, h2, h3⟩ := handleSubmit_ok _ _ h
    exact ⟨h1, le_trans h2 hb.2, h3⟩
  · intro v hv
    rcases hv with hv | hv <;> simp [parseIntOr100, hv]

/-- Witness for C10: a one-player roster whose hp input is "0" submits a
single player with hp = max_hp = 100. -/
theorem spec_C10_witness :
    (1 ≤ payloadW.length ∧ payloadW.length ≤ 8 ∧
      ∀ pi ∈ payloadW, pi.name ≠ "" ∧ pi.hp = pi.max_hp ∧
        ∃ e ∈ rosterEvsW.foldl rosterStep initRoster,
          pi.name = jsTrim e.name ∧ pi.hp = parseIntOr100 e.hp) ∧
    parseIntOr100 "0" = 100 :=
  ⟨spec_C10.1 rosterEvsW payloadW rfl,
   spec_C10.2 "0" (Or.inr rfl)⟩

end Referee
